import Mathlib

/-
  Verification of the command-line task runner in `pie.py` (module `pie`,
  version 0.0.1) against its natural-language specification.

  The embedding below translates the source faithfully:
  * Python strings are `List Char`; `str.split(sep)` is `pySplit`.
  * `TASK_RE = re.compile(r'(?P<name>[^()]+)(\((?P<args>.*)\))?')` together
    with `TASK_RE.match(arg)` is `taskReMatch` (an anchored-at-start,
    unanchored-at-end match; `.` does not match a newline).
  * Exceptions (`IndexError`, `ValueError` from tuple unpacking,
    `Exception(...)`) become the `Except PyErr` monad.
  * The `while` loop of `parseArguments` (pie.py lines 192-218) becomes the
    fuel-indexed structural recursion `parseLoopF`; `parseArguments` supplies
    fuel strictly larger than the maximal possible number of iterations
    (`parseLoopF_no_fuelOut` proves the fuel can never run out).
  * Module-level state (`options`, `tasks`, `context`, pie.py lines 34-48)
    becomes the explicit record `ProgState`; observable effects (prints,
    shell invocations, the `import pie_tasks` in `main`) become an `Event`
    trace.
-/

namespace Pie

/-- Character list of a string literal (Python strings are sequences of
characters). -/
def chars (s : String) : List Char := s.data

/-- Python `str.split(sep)` for a one-character separator `sep`: splits on
every occurrence, so the result has (number of occurrences + 1) parts and
`''.split(sep) == ['']`. -/
def pySplit (sep : Char) : List Char → List (List Char)
  | [] => [[]]
  | c :: rest =>
      if c = sep then [] :: pySplit sep rest
      else
        match pySplit sep rest with
        | [] => [[c]]
        | h :: t => (c :: h) :: t

/-- Index of the last `')'` in a character list, if any.  This is where the
greedy `.*` of `\((?P<args>.*)\)` ends up placing the closing parenthesis. -/
def lastParenIdx : List Char → Option Nat
  | [] => none
  | c :: rest =>
      match lastParenIdx rest with
      | some j => some (j + 1)
      | none => if c = ')' then some 0 else none

/-- The character class `[^()]` of `TASK_RE` (it matches every character,
newline included, except the two parentheses). -/
def nameChar (c : Char) : Bool := c ≠ '(' && c ≠ ')'

/-- The optional group `(\((?P<args>.*)\))?` of `TASK_RE`, applied to the
part of the token after the name: it participates in the match only when
that part starts with `'('` and a `')'` follows on the same line (`.` does
not match `'\n'`); the greedy `.*` makes `args` run to the last such `')'`.
Returns the `args` group (`none` when the group did not take part, which is
how `mo.group('args') is None` behaves). -/
def parenGroupArgs : List Char → Option (List Char)
  | [] => none
  | c :: tail =>
      if c = '(' then
        match lastParenIdx (tail.takeWhile (fun x => x ≠ '\n')) with
        | some j => some ((tail.takeWhile (fun x => x ≠ '\n')).take j)
        | none => none
      else none

/-- `TASK_RE.match(tok)` (pie.py line 191) followed by extraction of the
`name` and `args` groups.  `re.match` anchors at the start only: `[^()]+`
greedily takes the longest non-empty parenthesis-free run as `name`, the
parenthesized group is optional, and any trailing characters are ignored.
`none` models a failed match (empty name run). -/
def taskReMatch (tok : List Char) : Option (List Char × Option (List Char)) :=
  let name := tok.takeWhile nameChar
  if name = [] then none
  else some (name, parenGroupArgs (tok.drop name.length))

/-- The `Argument` hierarchy of pie.py lines 113-184, as a tagged variant:
`Version`, `Help`, `CreateBatchFile`, `Option(name,value)`,
`Task(name,args,kwargs)`.  The parser always passes `kwargs={}` (line 214). -/
inductive Argument where
  | version
  | help
  | createBatchFile
  | option (name value : List Char)
  | task (name : List Char) (args : List (List Char))
      (kwargs : List (List Char × List Char))
  deriving DecidableEq, Repr

/-- The Python exceptions that the modelled code can raise. `fuelOut` is an
artifact of the fuel-indexed loop encoding and is proved unreachable in
`parseArguments_no_fuelOut`. -/
inductive PyErr where
  | indexError
  | valueError
  | unknownTaskFormat (tok : List Char)
  | exception (msg : String)
  | keyError (name : List Char)
  | fuelOut
  deriving DecidableEq, Repr

instance {ε α : Type} [DecidableEq ε] [DecidableEq α] : DecidableEq (Except ε α) :=
  fun a b =>
    match a, b with
    | .ok x, .ok y =>
        if h : x = y then isTrue (by rw [h])
        else isFalse (by intro hc; cases hc; exact h rfl)
    | .error x, .error y =>
        if h : x = y then isTrue (by rw [h])
        else isFalse (by intro hc; cases hc; exact h rfl)
    | .ok _, .error _ => isFalse (by intro hc; cases hc)
    | .error _, .ok _ => isFalse (by intro hc; cases hc)

/-- Measure used to bound the number of iterations of the parse loop: each
remaining token contributes its length plus one. -/
def listMeasure (l : List (List Char)) : Nat :=
  (l.map (fun t => t.length + 1)).sum

/-- One iteration of the `while` loop of `parseArguments` (pie.py lines
197-217), parameterized by the continuation `rec` that runs the remaining
iterations: dispatch on the current token `args[i]`, producing the matching
`Argument` (for `-o`, also reading `args[i+1]`).  Note the source's slip on
line 211: `args=mo.group('args')` rebinds the token-list variable `args` to
the comma-split argument list of the task token, so the loop then continues
over that list instead of the original one. -/
def parseIter (rec : List (List Char) → Nat → Except PyErr (List Argument))
    (args : List (List Char)) (i : Nat) (h : i < args.length) :
    Except PyErr (List Argument) :=
  let arg := args.get ⟨i, h⟩
  if arg = chars "-v" then
    (rec args (i + 1)).map (fun r => Argument.version :: r)
  else if arg = chars "-h" then
    (rec args (i + 1)).map (fun r => Argument.help :: r)
  else if arg = chars "-b" then
    (rec args (i + 1)).map (fun r => Argument.createBatchFile :: r)
  else if arg = chars "-o" then
    if h2 : i + 1 < args.length then
      match pySplit '=' (args.get ⟨i + 1, h2⟩) with
      | [n, v] => (rec args (i + 2)).map (fun r => Argument.option n v :: r)
      | _ => .error .valueError
    else .error .indexError
  else
    match taskReMatch arg with
    | none => .error (.unknownTaskFormat arg)
    | some (name, argsOpt) =>
      let newArgs := match argsOpt with
        | none => []
        | some s => if s = [] then [] else pySplit ',' s
      (rec newArgs (i + 1)).map (fun r => Argument.task name newArgs [] :: r)

/-- The `while i<len(args)` loop of `parseArguments` (pie.py lines 196-217),
with `fuel` bounding the number of iterations (see
`parseLoopF_no_fuelOut`). -/
def parseLoopF (fuel : Nat) (args : List (List Char)) (i : Nat) :
    Except PyErr (List Argument) :=
  if h : i < args.length then
    match fuel with
    | 0 => .error .fuelOut
    | f + 1 => parseIter (parseLoopF f) args i h
  else .ok []

/-- `parseArguments(args)` (pie.py lines 192-218): start at index 1 (skip
the program name).  The fuel `listMeasure argv + 1` strictly dominates the
iteration count (see `parseArguments_no_fuelOut`). -/
def parseArguments (argv : List (List Char)) : Except PyErr (List Argument) :=
  parseLoopF (listMeasure argv + 1) argv 1

/-- Observable effects of the program: lines printed, the batch-file write
of `CreateBatchFile.execute`, shell commands launched by `cmd`
(`subprocess.call(c, shell=True)`, pie.py line 79, records the exact string
handed to the shell), option writes, task invocations, and the
`import pie_tasks` of `main` (line 228). -/
inductive Event where
  | print (line : String)
  | importPieTasks
  | createdBatchFile
  | shellCall (c : List Char)
  | setOption (name value : List Char)
  | invokeTask (name : List Char) (args : List (List Char))
      (kwargs : List (List Char × List Char))
  deriving DecidableEq, Repr

/-- A registered task body: receives the positional and keyword arguments
and either raises or returns, emitting a trace of effects. -/
def TaskImpl : Type :=
  List (List Char) → List (List Char × List Char) → Except PyErr (List Event)

/-- The module-level mutable state of pie.py: `options` (line 34, an
attribute bag), `tasks` (line 48, a dict keyed by name), and `context`
(line 40).  `context` is modelled as a stack of frames so that the spec's
stack-discipline claims can be stated; the source never mutates it. -/
structure ProgState where
  options : List (List Char × List Char)
  tasks : List (List Char × TaskImpl)
  context : List (List Char)

/-- `setattr(options, name, value)`: overwrite the entry for `name` if
present, otherwise add it. -/
def setAttr (l : List (List Char × List Char)) (n v : List Char) :
    List (List Char × List Char) :=
  match l with
  | [] => [(n, v)]
  | (k, w) :: rest => if k = n then (k, v) :: rest else (k, w) :: setAttr rest n v

/-- `tasks[name]` as an optional lookup (a missing key raises `KeyError`). -/
def lookupTask : List (List Char × TaskImpl) → List Char → Option TaskImpl
  | [], _ => none
  | (k, f) :: rest, n => if k = n then some f else lookupTask rest n

/-- The line printed by `Version.execute` (pie.py line 121). -/
def versionLine : String := "pie v0.0.1"

/-- The lines printed by `Help.execute` (pie.py lines 144-151). -/
def helpLines : List String :=
  [ "Usage:  pie -v | -h | -b | {-o name=value | task[(args...)]}"
  , "Version: v0.0.1"
  , ""
  , "  -v    Display version"
  , "  -h    Display this help"
  , "  -b    Create batch file shortcut"
  , "  -o    Sets an option with name to value"
  , "  task  Runs a task passing through arguments if required" ]

/-- `a.execute()` for each `Argument` subclass (pie.py lines 119-184):
`Version` and `Help` print; `CreateBatchFile` writes the shortcut file;
`Option.execute` does `setattr(options, name, value)`; `Task.execute` does
`tasks[self.name](*self.args, **self.kwargs)` and raises `KeyError` when
the name is unregistered. -/
def execArgument (a : Argument) (s : ProgState) :
    Except PyErr (ProgState × List Event) :=
  match a with
  | .version => .ok (s, [Event.print versionLine])
  | .help => .ok (s, helpLines.map Event.print)
  | .createBatchFile => .ok (s, [Event.createdBatchFile])
  | .option n v => .ok ({ s with options := setAttr s.options n v },
      [Event.setOption n v])
  | .task n args kwargs =>
      match lookupTask s.tasks n with
      | none => .error (.keyError n)
      | some f => (f args kwargs).map
          (fun evs => (s, Event.invokeTask n args kwargs :: evs))

/-- The `for a in args: a.execute()` loop of `main` (pie.py lines 229-230):
actions run left to right; the first raised exception aborts the loop and
propagates unmodified.  Returns the final state, the trace of effects that
actually happened, and the propagated exception if any. -/
def execList : List Argument → ProgState → ProgState × List Event × Option PyErr
  | [], s => (s, [], none)
  | a :: rest, s =>
      match execArgument a s with
      | .error e => (s, [], some e)
      | .ok (s', evs) =>
          let r := execList rest s'
          (r.1, evs ++ r.2.1, r.2.2)

/-- `main()` (pie.py lines 225-232): parse `sys.argv`; when at least one
action was parsed, `import pie_tasks` (whose load-time side effect,
registering tasks, is the parameter `pieTasksImport`) and execute the
actions in order; when the parsed list is empty, run `Help().execute()`
without importing anything. -/
def mainRun (pieTasksImport : ProgState → ProgState) (argv : List (List Char))
    (s : ProgState) : ProgState × List Event × Option PyErr :=
  match parseArguments argv with
  | .error e => (s, [], some e)
  | .ok [] =>
      match execArgument Argument.help s with
      | .ok (s', evs) => (s', evs, none)
      | .error e => (s, [], some e)
  | .ok (a :: rest) =>
      let s₁ := pieTasksImport s
      let r := execList (a :: rest) s₁
      (r.1, Event.importPieTasks :: r.2.1, r.2.2)

/-- `venv.__enter__` (pie.py lines 97-99): despite the `# push onto
pie.context` comment, the body is just `return self`; the state is left
untouched. -/
def venvEnter (path : List Char) (s : ProgState) : ProgState := s

/-- `venv.__exit__` (pie.py lines 101-106): despite the `# pop from
pie.context` comment it never touches the state; on a normal exit
(`exc_type is None`) it does nothing, otherwise it raises the generic
`Exception('I dunno')`, discarding the original exception. -/
def venvExitResult (excType : Option PyErr) : Except PyErr Unit :=
  match excType with
  | none => .ok ()
  | some _ => .error (.exception "I dunno")

/-- `venv.__exit__` as a state transformer (it never mutates the state). -/
def venvExitRun (excType : Option PyErr) (s : ProgState) :
    ProgState × Except PyErr Unit := (s, venvExitResult excType)

/-- Python's `with venv(path): body` statement built from `venv.__enter__`
and `venv.__exit__`: run the body on the entered state; on normal
completion call `__exit__(None,...)`, on an exception `e` call
`__exit__(type(e),...)` — if `__exit__` itself raises, that exception
replaces `e`; if it returns its (falsy) `None`, `e` propagates. -/
def withVenv (path : List Char)
    (body : ProgState → ProgState × List Event × Option PyErr)
    (s : ProgState) : ProgState × List Event × Option PyErr :=
  let s₁ := venvEnter path s
  let r := body s₁
  match r.2.2 with
  | none =>
      match venvExitResult none with
      | .ok _ => (r.1, r.2.1, none)
      | .error e' => (r.1, r.2.1, some e')
  | some e =>
      match venvExitResult (some e) with
      | .ok _ => (r.1, r.2.1, some e)
      | .error e' => (r.1, r.2.1, some e')

/-- `cmd(c)` (pie.py lines 75-79): hands the string `c` to the shell
exactly as given (`subprocess.call(c, shell=True)`); no state is read or
written, and in particular no context-dependent activation text is
prepended. -/
def cmdRun (c : List Char) (s : ProgState) : ProgState × List Event :=
  (s, [Event.shellCall c])

/-- The module state right after loading pie.py: empty `options`, empty
`tasks`, empty `context`. -/
def initState : ProgState := ⟨[], [], []⟩

/-- A module state in which a task named `build` (whose body succeeds with
no effects) has been registered, as a `pie_tasks` module would do. -/
def buildState : ProgState :=
  ⟨[], [(chars "build", fun _ _ => .ok [])], []⟩

/-- Whether an event is a printed line (the part of the observable
behavior a user sees on stdout). -/
def isPrintEvent (e : Event) : Bool :=
  match e with
  | .print _ => true
  | _ => false

/-!  Supporting lemmas: the fuel supplied by `parseArguments` strictly
dominates the iteration count of the source's `while` loop, so the
`fuelOut` artifact of the encoding is unreachable. -/


theorem parseLoopF_oob (fuel : Nat) (args : List (List Char)) (i : Nat)
    (h : ¬ i < args.length) : parseLoopF fuel args i = .ok [] := by
  rw [parseLoopF, dif_neg h]

theorem parseLoopF_succ (f : Nat) (args : List (List Char)) (i : Nat)
    (h : i < args.length) :
    parseLoopF (f + 1) args i = parseIter (parseLoopF f) args i h := by
  rw [parseLoopF, dif_pos h]

theorem pySplit_ne_nil (sep : Char) (l : List Char) : pySplit sep l ≠ [] := by
  induction l with
  | nil => simp [pySplit]
  | cons c rest ih =>
    by_cases h : c = sep
    · simp [pySplit, h]
    · simp only [pySplit, if_neg h]
      cases hr : pySplit sep rest with
      | nil => simp
      | cons a t => simp

theorem listMeasure_nil : listMeasure [] = 0 := rfl

theorem listMeasure_cons (t : List Char) (l : List (List Char)) :
    listMeasure (t :: l) = t.length + 1 + listMeasure l := by
  simp [listMeasure]

theorem pySplit_length (sep : Char) (l : List Char) :
    (pySplit sep l).length = l.count sep + 1 := by
  induction l with
  | nil => simp [pySplit]
  | cons c rest ih =>
    by_cases h : c = sep
    · simp [pySplit, h, List.count_cons, ih]
    · simp only [pySplit, if_neg h]
      cases hr : pySplit sep rest with
      | nil => exact absurd hr (pySplit_ne_nil sep rest)
      | cons a t =>
        rw [hr] at ih
        simp only [List.length_cons] at ih ⊢
        simp [List.count_cons, h, ih]

theorem listMeasure_pySplit (sep : Char) (l : List Char) :
    listMeasure (pySplit sep l) = l.length + 1 := by
  induction l with
  | nil => simp [pySplit, listMeasure]
  | cons c rest ih =>
    by_cases h : c = sep
    · simp [pySplit, h, listMeasure_cons, ih]
      omega
    · simp only [pySplit, if_neg h]
      cases hr : pySplit sep rest with
      | nil => exact absurd hr (pySplit_ne_nil sep rest)
      | cons a t =>
        rw [hr] at ih
        rw [listMeasure_cons] at ih ⊢
        simp only [List.length_cons] at ih ⊢
        omega

theorem lastParenIdx_lt (l : List Char) (j : Nat) (h : lastParenIdx l = some j) :
    j < l.length := by
  induction l generalizing j with
  | nil => simp [lastParenIdx] at h
  | cons c rest ih =>
    simp only [lastParenIdx] at h
    cases hr : lastParenIdx rest with
    | some k =>
      rw [hr] at h
      cases h
      have := ih k hr
      simp only [List.length_cons]
      omega
    | none =>
      rw [hr] at h
      by_cases hc : c = ')'
      · rw [if_pos hc] at h
        cases h
        simp
      · rw [if_neg hc] at h
        cases h

theorem takeWhileLenLe (p : Char → Bool) (l : List Char) :
    (l.takeWhile p).length ≤ l.length := by
  induction l with
  | nil => simp
  | cons c rest ih =>
    rw [List.takeWhile_cons]
    by_cases h : p c <;> simp [h] <;> omega

theorem parenGroupArgs_length (rest s : List Char)
    (h : parenGroupArgs rest = some s) : s.length + 2 ≤ rest.length := by
  match rest with
  | [] => simp [parenGroupArgs] at h
  | c :: tail =>
    by_cases hc : c = '('
    · rw [parenGroupArgs, if_pos hc] at h
      cases hj : lastParenIdx (tail.takeWhile (fun x => x ≠ '\n')) with
      | none => rw [hj] at h; cases h
      | some j =>
        rw [hj] at h
        cases h
        have hjlt := lastParenIdx_lt _ _ hj
        have hline := takeWhileLenLe (fun x => x ≠ '\n') tail
        simp only [List.length_take, List.length_cons]
        omega
    · rw [parenGroupArgs, if_neg hc] at h
      cases h

theorem taskReMatch_some (tok n : List Char) (o : Option (List Char))
    (h : taskReMatch tok = some (n, o)) :
    n ≠ [] ∧ ∀ s, o = some s → s.length + 3 ≤ tok.length := by
  rw [taskReMatch] at h
  by_cases hn : tok.takeWhile nameChar = []
  · rw [if_pos hn] at h; cases h
  · rw [if_neg hn] at h
    cases h
    refine ⟨hn, fun s hs => ?_⟩
    have h2 := parenGroupArgs_length _ s (by rw [← hs])
    have hdrop : (tok.drop (tok.takeWhile nameChar).length).length
        = tok.length - (tok.takeWhile nameChar).length := List.length_drop _ _
    have hle := takeWhileLenLe nameChar tok
    have hpos : 1 ≤ (tok.takeWhile nameChar).length := by
      cases hcc : tok.takeWhile nameChar with
      | nil => exact absurd hcc hn
      | cons a b => simp
    omega

theorem listMeasure_drop_le (l : List (List Char)) (k : Nat) :
    listMeasure (l.drop k) ≤ listMeasure l := by
  induction l generalizing k with
  | nil => simp
  | cons t rest ih =>
    cases k with
    | zero => simp
    | succ k' =>
      rw [List.drop_succ_cons, listMeasure_cons]
      have := ih k'
      omega

theorem listMeasure_drop_get (l : List (List Char)) (i : Nat) (h : i < l.length) :
    listMeasure (l.drop i)
      = (l.get ⟨i, h⟩).length + 1 + listMeasure (l.drop (i + 1)) := by
  induction l generalizing i with
  | nil => simp at h
  | cons t rest ih =>
    cases i with
    | zero => simp [listMeasure_cons]
    | succ i' =>
      rw [List.drop_succ_cons, List.drop_succ_cons]
      have h' : i' < rest.length := by simpa using h
      simpa using ih i' h'

theorem exceptMapNeFuelOut (x : Except PyErr (List Argument))
    (g : List Argument → List Argument) (h : x ≠ .error .fuelOut) :
    x.map g ≠ .error .fuelOut := by
  cases x with
  | ok a => simp [Except.map]
  | error e =>
    simp only [Except.map]
    intro hc
    cases hc
    exact h rfl

theorem parseLoopF_no_fuelOut : ∀ (fuel : Nat) (args : List (List Char)) (i : Nat),
    listMeasure (args.drop i) < fuel → parseLoopF fuel args i ≠ .error .fuelOut := by
  intro fuel
  induction fuel with
  | zero => intro args i h; exact absurd h (Nat.not_lt_zero _)
  | succ f ih =>
    intro args i h
    by_cases hi : i < args.length
    · rw [parseLoopF_succ f args i hi]
      unfold parseIter
      simp only []
      have hmeas := listMeasure_drop_get args i hi
      set arg := args.get ⟨i, hi⟩ with harg
      by_cases hv : arg = chars "-v"
      · rw [if_pos hv]
        exact exceptMapNeFuelOut _ _ (ih args (i + 1) (by omega))
      rw [if_neg hv]
      by_cases hh : arg = chars "-h"
      · rw [if_pos hh]
        exact exceptMapNeFuelOut _ _ (ih args (i + 1) (by omega))
      rw [if_neg hh]
      by_cases hb : arg = chars "-b"
      · rw [if_pos hb]
        exact exceptMapNeFuelOut _ _ (ih args (i + 1) (by omega))
      rw [if_neg hb]
      by_cases ho : arg = chars "-o"
      · rw [if_pos ho]
        by_cases h2 : i + 1 < args.length
        · rw [dif_pos h2]
          have hmeas2 := listMeasure_drop_get args (i + 1) h2
          have he2 : i + 1 + 1 = i + 2 := by omega
          rw [he2] at hmeas2
          cases hsp : pySplit '=' (args.get ⟨i + 1, h2⟩) with
          | nil => simp
          | cons n t =>
            cases t with
            | nil => simp
            | cons v t2 =>
              cases t2 with
              | nil =>
                simp only []
                exact exceptMapNeFuelOut _ _ (ih args (i + 2) (by omega))
              | cons w t3 => simp
        · rw [dif_neg h2]; simp
      rw [if_neg ho]
      cases htm : taskReMatch arg with
      | none => simp
      | some p =>
        obtain ⟨name, argsOpt⟩ := p
        simp only []
        have hname := taskReMatch_some arg name argsOpt htm
        cases argsOpt with
        | none =>
          simp only []
          refine exceptMapNeFuelOut _ _ (ih [] (i + 1) ?_)
          simp [listMeasure]
          omega
        | some sArgs =>
          simp only []
          by_cases hs : sArgs = []
          · rw [if_pos hs]
            refine exceptMapNeFuelOut _ _ (ih [] (i + 1) ?_)
            simp [listMeasure]
            omega
          · rw [if_neg hs]
            refine exceptMapNeFuelOut _ _ (ih (pySplit ',' sArgs) (i + 1) ?_)
            have hd := listMeasure_drop_le (pySplit ',' sArgs) (i + 1)
            have hm := listMeasure_pySplit ',' sArgs
            have hlen := hname.2 sArgs rfl
            omega
    · rw [parseLoopF_oob _ _ _ hi]
      simp

theorem parseArguments_no_fuelOut (argv : List (List Char)) :
    parseArguments argv ≠ .error .fuelOut := by
  rw [parseArguments]
  refine parseLoopF_no_fuelOut _ argv 1 ?_
  have := listMeasure_drop_le argv 1
  omega


theorem pySplit_no_sep (sep : Char) (l : List Char) (h : sep ∉ l) :
    pySplit sep l = [l] := by
  induction l with
  | nil => simp [pySplit]
  | cons c rest ih =>
    have hc : c ≠ sep := fun hc => h (hc ▸ List.mem_cons_self c rest)
    have hr : sep ∉ rest := fun hr => h (List.mem_cons_of_mem c hr)
    simp only [pySplit, if_neg hc, ih hr]

theorem pySplit_split (sep : Char) (a v : List Char) (ha : sep ∉ a)
    (hv : sep ∉ v) : pySplit sep (a ++ sep :: v) = [a, v] := by
  induction a with
  | nil => simp [pySplit, pySplit_no_sep sep v hv]
  | cons c rest ih =>
    have hc : c ≠ sep := fun hc => ha (hc ▸ List.mem_cons_self c rest)
    have hr : sep ∉ rest := fun hr => ha (List.mem_cons_of_mem c hr)
    simp only [List.cons_append, pySplit, if_neg hc, List.append_eq, ih hr]

/-- Parse of exactly `prog -o t`, for an arbitrary payload token `t`: the
result is determined by how `t.split('=')` comes apart (exactly two parts
produce an `Option`; anything else is the `ValueError` of the tuple
unpacking on pie.py line 205). -/
theorem parse_o_shape (t : List Char) :
    parseArguments [chars "pie", chars "-o", t] =
      match pySplit '=' t with
      | [n, v] => .ok [Argument.option n v]
      | _ => .error .valueError := rfl

theorem execList_cons (a : Argument) (rest : List Argument) (s : ProgState) :
    execList (a :: rest) s =
      match execArgument a s with
      | .error e => (s, [], some e)
      | .ok (s', evs) =>
          ((execList rest s').1, evs ++ (execList rest s').2.1,
            (execList rest s').2.2) := rfl

/-- Fail-fast shape of the execution loop: if every action of `pre`
succeeds and the next action `a` raises `e`, then the actions after `a` do
not run, no further effects happen, and `e` propagates unmodified. -/
theorem fail_fast (pre post : List Argument) (a : Argument) (s : ProgState)
    (e : PyErr) (h1 : (execList pre s).2.2 = none)
    (h2 : execArgument a (execList pre s).1 = .error e) :
    execList (pre ++ a :: post) s
      = ((execList pre s).1, (execList pre s).2.1, some e) := by
  induction pre generalizing s with
  | nil =>
    simp only [execList] at h2
    simp only [List.nil_append, execList_cons]
    rw [h2]
    rfl
  | cons p pre' ih =>
    cases hp : execArgument p s with
    | error e' =>
      rw [execList_cons, hp] at h1
      simp at h1
    | ok r =>
      obtain ⟨s', evs⟩ := r
      rw [execList_cons, hp] at h1 h2
      rw [List.cons_append, execList_cons, hp]
      simp only at h1 h2 ⊢
      rw [ih s' h1 h2]
      rw [execList_cons, hp]

theorem exceptMapError (x : Except PyErr (List Argument))
    (g : List Argument → List Argument) (d : PyErr) (h : x.map g = .error d) :
    x = .error d := by
  cases x with
  | ok a => simp [Except.map] at h
  | error e =>
    simp only [Except.map] at h
    exact h

/-- Any `Unknown task format` error raised while running the parse loop
carries a token drawn from the remaining slice of the current list (or from
a list obtained by splitting part of one of its tokens), so its length is
bounded by the remaining measure. -/
theorem parseLoopF_unknown_len : ∀ (fuel : Nat) (args : List (List Char))
    (i : Nat) (e : List Char),
    parseLoopF fuel args i = .error (.unknownTaskFormat e) →
    e.length + 1 ≤ listMeasure (args.drop i) := by
  intro fuel
  induction fuel with
  | zero =>
    intro args i e h
    rw [parseLoopF] at h
    by_cases hi : i < args.length
    · rw [dif_pos hi] at h
      simp at h
    · rw [dif_neg hi] at h
      simp at h
  | succ f ih =>
    intro args i e h
    by_cases hi : i < args.length
    · rw [parseLoopF_succ f args i hi] at h
      unfold parseIter at h
      simp only at h
      have hmeas := listMeasure_drop_get args i hi
      set arg := args.get ⟨i, hi⟩ with harg
      by_cases hv : arg = chars "-v"
      · rw [if_pos hv] at h
        have := ih args (i + 1) e (exceptMapError _ _ _ h)
        omega
      rw [if_neg hv] at h
      by_cases hh : arg = chars "-h"
      · rw [if_pos hh] at h
        have := ih args (i + 1) e (exceptMapError _ _ _ h)
        omega
      rw [if_neg hh] at h
      by_cases hb : arg = chars "-b"
      · rw [if_pos hb] at h
        have := ih args (i + 1) e (exceptMapError _ _ _ h)
        omega
      rw [if_neg hb] at h
      by_cases ho : arg = chars "-o"
      · rw [if_pos ho] at h
        by_cases h2 : i + 1 < args.length
        · rw [dif_pos h2] at h
          have hmeas2 := listMeasure_drop_get args (i + 1) h2
          have he2 : i + 1 + 1 = i + 2 := by omega
          rw [he2] at hmeas2
          cases hsp : pySplit '=' (args.get ⟨i + 1, h2⟩) with
          | nil => rw [hsp] at h; simp at h
          | cons n t1 =>
            cases t1 with
            | nil => rw [hsp] at h; simp at h
            | cons v t2 =>
              cases t2 with
              | nil =>
                rw [hsp] at h
                simp only at h
                have := ih args (i + 2) e (exceptMapError _ _ _ h)
                omega
              | cons w t3 => rw [hsp] at h; simp at h
        · rw [dif_neg h2] at h
          simp at h
      rw [if_neg ho] at h
      cases htm : taskReMatch arg with
      | none =>
        rw [htm] at h
        simp only at h
        simp at h
        subst h
        omega
      | some p =>
        obtain ⟨name, argsOpt⟩ := p
        rw [htm] at h
        simp only at h
        cases argsOpt with
        | none =>
          simp only at h
          have := ih [] (i + 1) e (exceptMapError _ _ _ h)
          simp [listMeasure] at this
        | some sArgs =>
          simp only at h
          have hbound := (taskReMatch_some arg name (some sArgs) htm).2 sArgs rfl
          by_cases hs : sArgs = []
          · rw [if_pos hs] at h
            have := ih [] (i + 1) e (exceptMapError _ _ _ h)
            simp [listMeasure] at this
          · rw [if_neg hs] at h
            have hlen := ih (pySplit ',' sArgs) (i + 1) e (exceptMapError _ _ _ h)
            have hd := listMeasure_drop_le (pySplit ',' sArgs) (i + 1)
            have hm := listMeasure_pySplit ',' sArgs
            omega
    · rw [parseLoopF_oob _ _ _ hi] at h
      simp at h

theorem taskReMatch_good_head (c : Char) (r : List Char) (h : nameChar c = true) :
    ∃ name argsOpt, taskReMatch (c :: r) = some (name, argsOpt) := by
  simp only [taskReMatch, List.takeWhile_cons_of_pos h]
  rw [if_neg (by simp)]
  exact ⟨_, _, rfl⟩

/-- Parse of exactly `prog t` for a single non-flag token `t`: the result is
the outcome of `TASK_RE.match` on `t`, with the loop continuing (because of
the line-211 rebinding) over the comma-split argument list at index 2. -/
theorem parse_single_nonflag (t : List Char) (hv : t ≠ chars "-v")
    (hh : t ≠ chars "-h") (hb : t ≠ chars "-b") (ho : t ≠ chars "-o") :
    parseArguments [chars "pie", t] =
      match taskReMatch t with
      | none => .error (.unknownTaskFormat t)
      | some (name, argsOpt) =>
        let newArgs := match argsOpt with
          | none => []
          | some s => if s = [] then [] else pySplit ',' s
        (parseLoopF (listMeasure [chars "pie", t]) newArgs 2).map
          (fun r => Argument.task name newArgs [] :: r) := by
  have h1 : (1 : Nat) < ([chars "pie", t]).length := by simp
  rw [parseArguments, parseLoopF_succ _ _ _ h1]
  unfold parseIter
  have hget : ([chars "pie", t]).get ⟨1, h1⟩ = t := rfl
  simp only [hget]
  rw [if_neg hv, if_neg hh, if_neg hb, if_neg ho]

/-!  The claims. -/

/-- C1: the parser does NOT examine the token list strictly left to right
producing one `Action` per token.  Evaluating the code at the failing input
`['pie', 'build(1,2)', '-v']`: the rebinding of `args` on pie.py line 211
replaces the token list by the comma-split argument list `['1','2']`, so
the `-v` token is never read and no `Version` action is produced.  Likewise
after a bare task token (`args` becomes `[]`), and after a task token with
three arguments the loop even parses the leftover argument `'3'` as a new
task. -/
theorem c1_flag_after_task_dropped :
    parseArguments [chars "pie", chars "build(1,2)", chars "-v"]
      = .ok [Argument.task (chars "build") [chars "1", chars "2"] []]
    ∧ parseArguments [chars "pie", chars "foo", chars "-v"]
      = .ok [Argument.task (chars "foo") [] []]
    ∧ parseArguments [chars "pie", chars "foo(1,2,3)", chars "-v"]
      = .ok [Argument.task (chars "foo") [chars "1", chars "2", chars "3"] [],
          Argument.task (chars "3") [] []] :=
  ⟨rfl, rfl, rfl⟩

/-- C2 counterexample: `-o a=b=c` does not produce `SetOption("a","b=c")`
(a split on the first `=`); the unpacking of the three-part split raises a
`ValueError`. -/
theorem c2_counterexample :
    parseArguments [chars "pie", chars "-o", chars "a=b=c"]
      = .error .valueError
    ∧ parseArguments [chars "pie", chars "-o", chars "a=b=c"]
      ≠ .ok [Argument.option (chars "a") (chars "b=c")] :=
  ⟨rfl, by decide⟩

/-- C2 (amended): `-o` consumes the next token as `name=value` where the
token must contain exactly one `=` (`split('=')` with no maxsplit, then a
two-variable tuple unpacking): with exactly one `=` it produces
`SetOption(name, value)`; it fails when the next token is absent
(IndexError), contains no `=`, or contains more than one `=`
(ValueError). -/
theorem c2_option_requires_single_eq :
    (∀ a v : List Char, '=' ∉ a → '=' ∉ v →
        parseArguments [chars "pie", chars "-o", a ++ '=' :: v]
          = .ok [Argument.option a v])
    ∧ (∀ t : List Char, t.count '=' ≠ 1 →
        parseArguments [chars "pie", chars "-o", t] = .error .valueError)
    ∧ parseArguments [chars "pie", chars "-o"] = .error .indexError := by
  refine ⟨fun a v ha hv => ?_, fun t h => ?_, rfl⟩
  · rw [parse_o_shape, pySplit_split '=' a v ha hv]
  · rw [parse_o_shape]
    have hl := pySplit_length '=' t
    cases hsp : pySplit '=' t with
    | nil => rfl
    | cons n rest =>
      cases rest with
      | nil => rfl
      | cons v rest2 =>
        cases rest2 with
        | nil =>
          rw [hsp] at hl
          simp at hl
          omega
        | cons w rest3 => rfl

/-- C2 witness: `-o a=b` parses to `SetOption("a","b")`, and `-o` followed
by a token with no `=` raises. -/
theorem c2_option_requires_single_eq_witness :
    parseArguments [chars "pie", chars "-o", chars "a=b"]
      = .ok [Argument.option (chars "a") (chars "b")]
    ∧ parseArguments [chars "pie", chars "-o", chars "noeq"]
      = .error .valueError :=
  ⟨c2_option_requires_single_eq.1 (chars "a") (chars "b") (by decide) (by decide),
   c2_option_requires_single_eq.2.1 (chars "noeq") (by decide)⟩

/-- C3: evaluating the code at the failing input (`cmd('echo hi')` issued
inside `with venv('venv/build'):`): the string handed to the shell is
exactly `echo hi` — `cmd` passes its argument through unmodified whether or
not a venv block is active, and no activation text for `venv/build` is
prepended. -/
theorem c3_cmd_never_prefixed :
    withVenv (chars "venv/build")
        (fun s => ((cmdRun (chars "echo hi") s).1,
          (cmdRun (chars "echo hi") s).2, none)) initState
      = (initState, [Event.shellCall (chars "echo hi")], none)
    ∧ (∀ (c : List Char) (s : ProgState),
        cmdRun c s = (s, [Event.shellCall c])) :=
  ⟨rfl, fun c s => rfl⟩

/-- C4: evaluating the code at the failing input `with venv('venv/build'):`
starting from the initial state: `venv.__enter__` pushes nothing (the
context stack inside the block still has depth 0, not 1) and
`venv.__exit__` pops nothing; the push/pop announced by the comments in the
source is not implemented. -/
theorem c4_no_frame_pushed :
    (∀ (p : List Char) (s : ProgState),
        (venvEnter p s).context = s.context
        ∧ (venvExitRun none s).1.context = s.context)
    ∧ (venvEnter (chars "venv/build") initState).context.length
        ≠ initState.context.length + 1 :=
  ⟨fun p s => ⟨rfl, rfl⟩, by decide⟩

/-- C5: for every exception `e` raised inside a `with venv(path):` block,
`venv.__exit__` raises the generic `Exception('I dunno')` in place of `e`
(whatever `e` was), while a block that completes normally raises
nothing. -/
theorem c5_exit_raises_generic :
    (∀ (p : List Char) (s s₂ : ProgState) (evs : List Event) (e : PyErr)
        (body : ProgState → ProgState × List Event × Option PyErr),
        body (venvEnter p s) = (s₂, evs, some e) →
        withVenv p body s = (s₂, evs, some (PyErr.exception "I dunno")))
    ∧ (∀ (p : List Char) (s s₂ : ProgState) (evs : List Event)
        (body : ProgState → ProgState × List Event × Option PyErr),
        body (venvEnter p s) = (s₂, evs, none) →
        withVenv p body s = (s₂, evs, none)) := by
  constructor
  · intro p s s₂ evs e body hb
    have hw : withVenv p body s = (match (body (venvEnter p s)).2.2 with
        | none => ((body (venvEnter p s)).1, (body (venvEnter p s)).2.1, none)
        | some _ => ((body (venvEnter p s)).1, (body (venvEnter p s)).2.1,
            some (PyErr.exception "I dunno"))) := rfl
    rw [hw, hb]
  · intro p s s₂ evs body hb
    have hw : withVenv p body s = (match (body (venvEnter p s)).2.2 with
        | none => ((body (venvEnter p s)).1, (body (venvEnter p s)).2.1, none)
        | some _ => ((body (venvEnter p s)).1, (body (venvEnter p s)).2.1,
            some (PyErr.exception "I dunno"))) := rfl
    rw [hw, hb]

/-- C5 witness: a body raising `IndexError` inside `with venv('v'):` is
replaced by the generic `Exception('I dunno')`. -/
theorem c5_exit_raises_generic_witness :
    withVenv (chars "v") (fun st => (st, [], some PyErr.indexError)) initState
      = (initState, [], some (PyErr.exception "I dunno")) :=
  c5_exit_raises_generic.1 (chars "v") initState initState [] PyErr.indexError
    (fun st => (st, [], some PyErr.indexError)) rfl

/-- C6 counterexample: `foo(1` (unmatched parenthesis) and `foo)bar`
(embedded parenthesis) do NOT fail with a ParseError; the unanchored
`TASK_RE.match` accepts the leading parenthesis-free run `foo` and ignores
the rest, yielding a task call. -/
theorem c6_counterexample :
    parseArguments [chars "pie", chars "foo(1"]
      = .ok [Argument.task (chars "foo") [] []]
    ∧ parseArguments [chars "pie", chars "foo)bar"]
      = .ok [Argument.task (chars "foo") [] []]
    ∧ parseArguments [chars "pie", chars "foo(1"]
      ≠ .error (.unknownTaskFormat (chars "foo(1")) :=
  ⟨rfl, rfl, by decide⟩

/-- C6 (amended): for a single non-flag token, parsing fails with a
ParseError carrying that very token exactly when the token is empty or
begins with `(` or `)` (the `[^()]+` name run must be non-empty and is
anchored only at the start).  A token beginning with any other character is
never itself the offending token: the match accepts its longest leading
parenthesis-free run as the task name, so `foo(1` and `foo)bar` parse as
task calls.  Parsing may still fail while the loop re-parses the
comma-split pieces of a matched argument list, but the ParseError then
carries such a strictly shorter piece, never the whole token — e.g.
`x(a,b,()` fails with the error carrying `(`. -/
theorem c6_reject_only_paren_or_empty :
    (∀ t : List Char,
      parseArguments [chars "pie", t] = .error (.unknownTaskFormat t)
        ↔ t = [] ∨ (∃ c r, t = c :: r ∧ (c = '(' ∨ c = ')')))
    ∧ parseArguments [chars "pie", chars "x(a,b,()"]
        = .error (.unknownTaskFormat (chars "(")) := by
  constructor
  · intro t
    constructor
    · intro hE
      cases t with
      | nil => exact Or.inl rfl
      | cons c r =>
        by_cases hgood : nameChar c = true
        · exfalso
          by_cases hv : c :: r = chars "-v"
          · rw [hv] at hE; exact absurd hE (by decide)
          by_cases hh : c :: r = chars "-h"
          · rw [hh] at hE; exact absurd hE (by decide)
          by_cases hb : c :: r = chars "-b"
          · rw [hb] at hE; exact absurd hE (by decide)
          by_cases ho : c :: r = chars "-o"
          · rw [ho] at hE; exact absurd hE (by decide)
          rw [parse_single_nonflag _ hv hh hb ho] at hE
          obtain ⟨name, argsOpt, hm⟩ := taskReMatch_good_head c r hgood
          rw [hm] at hE
          simp only at hE
          have hbound := taskReMatch_some _ _ _ hm
          cases argsOpt with
          | none =>
            simp only at hE
            have := parseLoopF_unknown_len _ _ _ _ (exceptMapError _ _ _ hE)
            simp [listMeasure] at this
          | some sArgs =>
            simp only at hE
            have hlen3 := hbound.2 sArgs rfl
            by_cases hs : sArgs = []
            · rw [if_pos hs] at hE
              have := parseLoopF_unknown_len _ _ _ _ (exceptMapError _ _ _ hE)
              simp [listMeasure] at this
            · rw [if_neg hs] at hE
              have hlen := parseLoopF_unknown_len _ _ _ _ (exceptMapError _ _ _ hE)
              have hd := listMeasure_drop_le (pySplit ',' sArgs) 2
              have hm2 := listMeasure_pySplit ',' sArgs
              omega
        · have hpar : c = '(' ∨ c = ')' := by
            by_contra hcc
            push_neg at hcc
            exact hgood (by simp [nameChar, hcc.1, hcc.2])
          exact Or.inr ⟨c, r, rfl, hpar⟩
    · intro h
      rcases h with rfl | ⟨c, r, rfl, rfl | rfl⟩
      · rfl
      · rfl
      · rfl
  · rfl

/-- C6 witness: the token `(x)` fails with the parse error carrying it. -/
theorem c6_reject_only_paren_or_empty_witness :
    parseArguments [chars "pie", chars "(x)"]
      = .error (.unknownTaskFormat (chars "(x)")) :=
  (c6_reject_only_paren_or_empty.1 (chars "(x)")).mpr
    (Or.inr ⟨'(', chars "x)", rfl, Or.inl rfl⟩)

/-- C7: `foo()` parses to a task with zero positional arguments (the empty
`args` group is falsy, so no one-empty-string list is built), `foo(1,2)`
to a task with arguments `["1","2"]`, and bare `foo` to a task with no
arguments; the keyword-argument map is `{}` in all three. -/
theorem c7_task_token_forms :
    parseArguments [chars "pie", chars "foo()"]
      = .ok [Argument.task (chars "foo") [] []]
    ∧ parseArguments [chars "pie", chars "foo(1,2)"]
      = .ok [Argument.task (chars "foo") [chars "1", chars "2"] []]
    ∧ parseArguments [chars "pie", chars "foo"]
      = .ok [Argument.task (chars "foo") [] []] :=
  ⟨rfl, rfl, rfl⟩

/-- C8 counterexample: running with no arguments is NOT identical to
running with `-h`: the observable traces differ, because `main` imports
the task-definition module exactly when at least one action was parsed —
which holds for `-h` and fails for the empty argument list. -/
theorem c8_counterexample :
    (mainRun id [chars "pie"] initState).2.1
      ≠ (mainRun id [chars "pie", chars "-h"] initState).2.1 := by
  decide

/-- C8 (amended): the empty token list parses to an empty action sequence
and `main` substitutes the help display, so no-arguments prints exactly the
`-h` output and both runs succeed; but the two are not identical: `-h`
additionally imports the task-definition module (one action was parsed),
no-arguments does not. -/
theorem c8_no_args_prints_help :
    ∀ (imp : ProgState → ProgState) (s : ProgState),
      ((mainRun imp [chars "pie"] s).2.1.filter isPrintEvent
        = (mainRun imp [chars "pie", chars "-h"] s).2.1.filter isPrintEvent)
      ∧ (mainRun imp [chars "pie"] s).2.2 = none
      ∧ (mainRun imp [chars "pie", chars "-h"] s).2.2 = none
      ∧ Event.importPieTasks ∉ (mainRun imp [chars "pie"] s).2.1
      ∧ Event.importPieTasks ∈ (mainRun imp [chars "pie", chars "-h"] s).2.1 := by
  intro imp s
  refine ⟨rfl, rfl, rfl, ?_, ?_⟩
  · show Event.importPieTasks ∉ helpLines.map Event.print
    decide
  · show Event.importPieTasks
      ∈ Event.importPieTasks :: (helpLines.map Event.print ++ [])
    exact List.mem_cons_self _ _

/-- C9: `['pie','-o','x=1','build(1,2)']` parses to the option action
followed by the task action; executing that sequence sets option `x` to
`1` strictly before invoking task `build` with `["1","2"]`; and in any
action sequence, if the action after a succeeding prefix raises, the
remaining actions do not execute and the failure propagates unmodified. -/
theorem c9_sequential_fail_fast :
    (parseArguments [chars "pie", chars "-o", chars "x=1", chars "build(1,2)"]
      = .ok [Argument.option (chars "x") (chars "1"),
          Argument.task (chars "build") [chars "1", chars "2"] []])
    ∧ ((execList [Argument.option (chars "x") (chars "1"),
          Argument.task (chars "build") [chars "1", chars "2"] []]
        buildState).2.1
      = [Event.setOption (chars "x") (chars "1"),
         Event.invokeTask (chars "build") [chars "1", chars "2"] []])
    ∧ (∀ (pre post : List Argument) (a : Argument) (s : ProgState) (e : PyErr),
        (execList pre s).2.2 = none →
        execArgument a (execList pre s).1 = .error e →
        execList (pre ++ a :: post) s
          = ((execList pre s).1, (execList pre s).2.1, some e)) :=
  ⟨rfl, rfl, fail_fast⟩

/-- C9 witness: with an unregistered task `bogus` as first action, the
`KeyError` propagates and the following `Version` action never runs. -/
theorem c9_sequential_fail_fast_witness :
    execList [Argument.task (chars "bogus") [] [], Argument.version] initState
      = (initState, [], some (PyErr.keyError (chars "bogus"))) :=
  c9_sequential_fail_fast.2.2 [] [Argument.version]
    (Argument.task (chars "bogus") [] []) initState
    (PyErr.keyError (chars "bogus")) rfl rfl

/-- C10: entering and normally exiting a venv block with an empty body, and
running `cmd`, leave the option store, the task registry, and the context
object exactly as they were, for every path, command and prior state. -/
theorem c10_venv_cmd_frame :
    ∀ (p c : List Char) (s : ProgState),
      ((withVenv p (fun st => (st, [], none)) s).1.options = s.options
        ∧ (withVenv p (fun st => (st, [], none)) s).1.tasks = s.tasks
        ∧ (withVenv p (fun st => (st, [], none)) s).1.context = s.context
        ∧ (withVenv p (fun st => (st, [], none)) s).2.2 = none)
      ∧ ((cmdRun c s).1.options = s.options
        ∧ (cmdRun c s).1.tasks = s.tasks
        ∧ (cmdRun c s).1.context = s.context) :=
  fun p c s => ⟨⟨rfl, rfl, rfl, rfl⟩, rfl, rfl, rfl⟩

end Pie
